import Mathlib

set_option maxRecDepth 40000

/-!
Shallow embedding of the deterministic best-purchase-day algorithm of
`verify_sha256.py` (functions `parse_date_key` and `compute_best_day`).

Strings are modelled as lists of characters (`Str`), Python dictionaries
built row by row as association lists with later entries overriding
earlier ones, Python exceptions as an explicit error type `PyErr`
propagated through `Except`, and the library calls (`str.strip`,
`str.split`, `int`, `calendar.monthrange`, `hashlib.sha256`) as
executable Lean functions translated from their documented behaviour.
-/

/-- Python strings are modelled as lists of characters. -/
abbrev Str : Type := List Char

/-- Coerce a Lean string literal to the character-list model. -/
def strL (s : String) : Str := s.data

/-- The whitespace characters stripped by Python `str.strip()` (ASCII
whitespace; exotic Unicode space characters do not occur in this data). -/
def isPySpace (c : Char) : Bool :=
  c = ' ' || c = '\t' || c = '\n' || c = '\r' || c = Char.ofNat 11 || c = Char.ofNat 12

/-- Remove leading whitespace characters. -/
def dropLeading (s : Str) : Str := List.dropWhile isPySpace s

/-- Python `str.strip()`: remove leading and trailing whitespace. -/
def pyStrip (s : Str) : Str := dropLeading (List.reverse (dropLeading (List.reverse s)))

/-- Python `str.split(sep)` for a one-character separator: split on every
occurrence, never collapsing, so the result is always non-empty and the
empty string splits to `[""]`. -/
def splitOnChar (sep : Char) : Str → List Str
  | [] => [[]]
  | c :: cs =>
    match splitOnChar sep cs with
    | [] => [[]]
    | r :: rs => if c = sep then [] :: r :: rs else (c :: r) :: rs

/-- Python `sep.join(parts)`. -/
def joinWith (sep : Str) : List Str → Str
  | [] => []
  | [x] => x
  | x :: y :: xs => x ++ sep ++ joinWith sep (y :: xs)

/-- Decimal digit test. -/
def isDigitCh (c : Char) : Bool := 48 ≤ c.toNat && c.toNat ≤ 57

/-- Value of a decimal digit character. -/
def digitVal (c : Char) : Nat := c.toNat - 48

/-- Accumulate the value of a run of decimal digits. -/
def decAccum (acc : Nat) : Str → Nat
  | [] => acc
  | c :: cs => decAccum (acc * 10 + digitVal c) cs

/-- Parse a non-empty run of ASCII decimal digits, allowing the single
underscores between digits that Python `int` accepts. -/
def decDigits : Str → Option Nat
  | [] => none
  | cs =>
    if cs.head? = some '_' ∨ cs.getLast? = some '_' then none
    else if List.all (List.zip cs (cs.drop 1))
        (fun p => !(p.1 = '_' ∧ p.2 = '_')) = false then none
    else if List.all cs (fun c => isDigitCh c || c = '_') = false then none
    else some (decAccum 0 (cs.filter isDigitCh))

/-- Python `int(s)` on a string: strip whitespace, optional sign, then a
non-empty run of decimal digits (with optional single underscores between
digits).  Returns `none` where Python raises `ValueError`.  Non-ASCII
decimal digits, which Python also accepts, do not occur in this data. -/
def pyInt (s : Str) : Option Int :=
  match pyStrip s with
  | '-' :: rest => (decDigits rest).map (fun n => -(n : Int))
  | '+' :: rest => (decDigits rest).map (fun n => (n : Int))
  | rest => (decDigits rest).map (fun n => (n : Int))

/-- Hexadecimal digit value (`0-9`, `a-f`, `A-F`); other characters give
0, which is unreachable for the hex digests this program feeds in. -/
def hexCharVal (c : Char) : Nat :=
  if 48 ≤ c.toNat ∧ c.toNat ≤ 57 then c.toNat - 48
  else if 97 ≤ c.toNat ∧ c.toNat ≤ 102 then c.toNat - 87
  else if 65 ≤ c.toNat ∧ c.toNat ≤ 70 then c.toNat - 55
  else 0

/-- Python `int(s, 16)` restricted to the non-empty lowercase hex strings
produced by `hexdigest` (on which it never raises). -/
def hexValNat (s : Str) : Nat := List.foldl (fun acc c => acc * 16 + hexCharVal c) 0 s

/-- Decimal digit character. -/
def digitCh (d : Nat) : Char := Char.ofNat (48 + d)

/-- Digits of a natural number, most significant first (fuel-driven so
that it is structurally recursive and kernel-evaluable). -/
def natDigitsAux : Nat → Nat → List Char → List Char
  | 0, _, acc => acc
  | fuel + 1, n, acc =>
    if n < 10 then digitCh n :: acc
    else natDigitsAux fuel (n / 10) (digitCh (n % 10) :: acc)

/-- Python `str(n)` for a natural number. -/
def natStr (n : Nat) : Str := natDigitsAux (n + 1) n []

/-- Python `str(n)` for an integer. -/
def intStr (n : Int) : Str :=
  if n < 0 then '-' :: natStr n.natAbs else natStr n.toNat

/-- Python `str.zfill(w)`: pad on the left with zeros to width `w`
(the inputs here are unsigned, so the sign-handling clause of `zfill`
is not exercised). -/
def zfill (w : Nat) (s : Str) : Str := List.replicate (w - s.length) '0' ++ s

/-- UTF-8 encoding of one code point. -/
def utf8Char (n : Nat) : List Nat :=
  if n < 128 then [n]
  else if n < 2048 then [192 + n / 64, 128 + n % 64]
  else if n < 65536 then [224 + n / 4096, 128 + n / 64 % 64, 128 + n % 64]
  else [240 + n / 262144, 128 + n / 4096 % 64, 128 + n / 64 % 64, 128 + n % 64]

/-- Python `s.encode('utf-8')`: the UTF-8 bytes of a string. -/
def utf8Encode (s : Str) : List Nat := List.flatten (List.map (fun c => utf8Char c.toNat) s)

/-! ### SHA-256 (`hashlib.sha256(...).hexdigest()`) -/

/-- The constant `2 ^ 32`. -/
def w32 : Nat := 4294967296

/-- Right rotation of a 32-bit word. -/
def rotr (n x : Nat) : Nat := x / 2 ^ n + x % 2 ^ n * 2 ^ (32 - n)

/-- Right shift of a 32-bit word. -/
def shr (n x : Nat) : Nat := x / 2 ^ n

/-- SHA-256 choose function. -/
def shaCh (x y z : Nat) : Nat := (x &&& y) ^^^ ((x ^^^ 4294967295) &&& z)

/-- SHA-256 majority function. -/
def shaMaj (x y z : Nat) : Nat := (x &&& y) ^^^ (x &&& z) ^^^ (y &&& z)

/-- SHA-256 big sigma 0. -/
def bSig0 (x : Nat) : Nat := rotr 2 x ^^^ rotr 13 x ^^^ rotr 22 x

/-- SHA-256 big sigma 1. -/
def bSig1 (x : Nat) : Nat := rotr 6 x ^^^ rotr 11 x ^^^ rotr 25 x

/-- SHA-256 small sigma 0. -/
def sSig0 (x : Nat) : Nat := rotr 7 x ^^^ rotr 18 x ^^^ shr 3 x

/-- SHA-256 small sigma 1. -/
def sSig1 (x : Nat) : Nat := rotr 17 x ^^^ rotr 19 x ^^^ shr 10 x

/-- The 64 SHA-256 round constants. -/
def shaK : List Nat :=
  [1116352408, 1899447441, 3049323471, 3921009573, 961987163,
   1508970993, 2453635748, 2870763221, 3624381080, 310598401,
   607225278, 1426881987, 1925078388, 2162078206, 2614888103,
   3248222580, 3835390401, 4022224774, 264347078, 604807628,
   770255983, 1249150122, 1555081692, 1996064986, 2554220882,
   2821834349, 2952996808, 3210313671, 3336571891, 3584528711,
   113926993, 338241895, 666307205, 773529912, 1294757372,
   1396182291, 1695183700, 1986661051, 2177026350, 2456956037,
   2730485921, 2820302411, 3259730800, 3345764771, 3516065817,
   3600352804, 4094571909, 275423344, 430227734, 506948616,
   659060556, 883997877, 958139571, 1322822218, 1537002063,
   1747873779, 1955562222, 2024104815, 2227730452, 2361852424,
   2428436474, 2756734187, 3204031479, 3329325298]

/-- Working state of the SHA-256 compression function. -/
structure Hash8 where
  a : Nat
  b : Nat
  c : Nat
  d : Nat
  e : Nat
  f : Nat
  g : Nat
  h : Nat
deriving DecidableEq, Repr

/-- Initial SHA-256 hash value. -/
def shaInit : Hash8 :=
  ⟨1779033703,
   3144134277,
   1013904242,
   2773480762,
   1359893119,
   2600822924,
   528734635,
   1541459225⟩

/-- Big-endian bytes of a number, fixed width. -/
def beBytes : Nat → Nat → List Nat
  | 0, _ => []
  | w + 1, n => beBytes w (n / 256) ++ [n % 256]

/-- SHA-256 message padding: append `0x80`, zeros to 56 mod 64, then the
bit length as 8 big-endian bytes. -/
def shaPad (msg : List Nat) : List Nat :=
  msg ++ 128 :: List.replicate ((120 - (msg.length + 1) % 64) % 64) 0 ++
    beBytes 8 (msg.length * 8)

/-- Split a byte list into 64-byte chunks (fuel-driven). -/
def chunk64 : Nat → List Nat → List (List Nat)
  | 0, _ => []
  | _, [] => []
  | fuel + 1, l => List.take 64 l :: chunk64 fuel (List.drop 64 l)

/-- Combine 4 big-endian bytes into 32-bit words. -/
def wordsOf : List Nat → List Nat
  | b0 :: b1 :: b2 :: b3 :: rest => (b0 * 16777216 + b1 * 65536 + b2 * 256 + b3) :: wordsOf rest
  | _ => []

/-- Extend the 16 message words to 64 (fuel counts the 48 extensions). -/
def shaSched : Nat → List Nat → List Nat
  | 0, ws => ws
  | fuel + 1, ws =>
    let n := ws.length
    let wi := (sSig1 (ws.getD (n - 2) 0) + ws.getD (n - 7) 0 +
               sSig0 (ws.getD (n - 15) 0) + ws.getD (n - 16) 0) % w32
    shaSched fuel (ws ++ [wi])

/-- One SHA-256 round. -/
def shaRound (s : Hash8) (kw : Nat × Nat) : Hash8 :=
  let t1 := (s.h + bSig1 s.e + shaCh s.e s.f s.g + kw.1 + kw.2) % w32
  let t2 := (bSig0 s.a + shaMaj s.a s.b s.c) % w32
  ⟨(t1 + t2) % w32, s.a, s.b, s.c, (s.d + t1) % w32, s.e, s.f, s.g⟩

/-- Process one 64-byte block. -/
def shaBlock (s : Hash8) (block : List Nat) : Hash8 :=
  let ws := shaSched 48 (wordsOf block)
  let t := List.foldl shaRound s (List.zip shaK ws)
  ⟨(s.a + t.a) % w32, (s.b + t.b) % w32, (s.c + t.c) % w32, (s.d + t.d) % w32,
   (s.e + t.e) % w32, (s.f + t.f) % w32, (s.g + t.g) % w32, (s.h + t.h) % w32⟩

/-- SHA-256 over a byte list, as the eight 32-bit words of the digest. -/
def sha256words (msg : List Nat) : Hash8 :=
  let padded := shaPad msg
  List.foldl shaBlock shaInit (chunk64 (padded.length + 1) padded)

/-- Lowercase hexadecimal digit character. -/
def hexCh (n : Nat) : Char := if n < 10 then Char.ofNat (48 + n) else Char.ofNat (87 + n)

/-- Eight lowercase hex characters of a 32-bit word. -/
def hex8 (x : Nat) : Str :=
  [hexCh (x / 268435456 % 16), hexCh (x / 16777216 % 16), hexCh (x / 1048576 % 16),
   hexCh (x / 65536 % 16), hexCh (x / 4096 % 16), hexCh (x / 256 % 16),
   hexCh (x / 16 % 16), hexCh (x % 16)]

/-- Python `hashlib.sha256(msg).hexdigest()`: the 64-character lowercase hex
digest of a byte list. -/
def sha256hex (msg : List Nat) : Str :=
  let s := sha256words msg
  hex8 s.a ++ hex8 s.b ++ hex8 s.c ++ hex8 s.d ++ hex8 s.e ++ hex8 s.f ++ hex8 s.g ++ hex8 s.h

/-! ### Errors and data model -/

/-- The Python exceptions that `compute_best_day` can raise: `IndexError`
(empty row list, or too few `/`-separated parts), `KeyError` (anchor row
lacking the `time` column), `ValueError` (a failing `int(...)` call) and
`calendar.IllegalMonthError` (month outside `1..12`). -/
inductive PyErr where
  | indexError
  | keyError (k : Str)
  | valueError (s : Str)
  | illegalMonthError (m : Int)
deriving DecidableEq, Repr

/-- The sort key produced by `parse_date_key`: (year, month, day),
compared lexicographically like a Python tuple. -/
abbrev DateKey : Type := Int × Int × Int

/-- A row: the dictionary built from the header and one CSV line,
modelled as an association list in insertion order; a repeated key
overrides earlier entries (`dictFind` returns the last occurrence). -/
abbrev Row : Type := List (Str × Str)

/-- Dictionary lookup: the value of the last entry with the given key. -/
def dictFind : Row → Str → Option Str
  | [], _ => none
  | (k', v) :: rest, k =>
    match dictFind rest k with
    | some v' => some v'
    | none => if k' = k then some v else none

/-- Python `dict.get(k, d)`. -/
def pyGetD (r : Row) (k d : Str) : Str := (dictFind r k).getD d

/-- The column name `time`. -/
def timeKey : Str := strL "time"

/-- The 39 recognized columns, in the order baked into the hash
(`HASH_COLUMNS` in `verify_sha256.py`). -/
def HASH_COLUMNS : List Str := List.map strL
  ["time", "year", "month", "week_of_year", "day_of_week",
   "is_market_open", "is_flood_crisis", "is_lockdown",
   "Avg.Price (Rs./Kg)", "MaxPrice (Rs./Kg)", "Daily_Spread",
   "Total Qty Arrived (Kgs)", "Qty Sold (Kgs)", "Smooth_Qty_Arrived", "Auctioneer",
   "temperature_2m_mean (°C)", "temperature_2m_max (°C)", "temperature_2m_min (°C)", "Temp_Diff",
   "precipitation_sum (mm)", "relative_humidity_2m_mean (%)",
   "soil_moisture_0_to_7cm_mean (m³/m³)", "et0_fao_evapotranspiration (mm)",
   "Precip_7D", "RH_7D",
   "Lag1", "Lag7", "Lag14", "Lag30", "Lag_MaxPrice_1", "Lag_Spread_1",
   "MA7", "MA14", "MA30",
   "Lag_Qty_Sold_1", "Lag_Total_Qty_Arrived_1",
   "Precip_30D_Sum", "Precip_Lag_60", "Soil_Moisture_Lag_14"]

/-! ### `parse_date_key` -/

/-- Function `parse_date_key(t)`: strip, split on `/`; with exactly 3 parts whose
last has 4 characters, build `(int(parts[2]), int(parts[1]),
int(parts[0]))` (Python evaluates the tuple left to right, so the year is
converted first); otherwise return the sentinel `(0, 0, 0)`.  A failing
`int` conversion raises `ValueError`, modelled as `.error`. -/
def parse_date_key (t : Str) : Except PyErr DateKey :=
  let parts := splitOnChar '/' (pyStrip t)
  if parts.length = 3 ∧ (parts.getD 2 []).length = 4 then
    match pyInt (parts.getD 2 []) with
    | none => .error (.valueError (parts.getD 2 []))
    | some y =>
      match pyInt (parts.getD 1 []) with
      | none => .error (.valueError (parts.getD 1 []))
      | some m =>
        match pyInt (parts.getD 0 []) with
        | none => .error (.valueError (parts.getD 0 []))
        | some d => .ok (y, m, d)
  else .ok (0, 0, 0)

/-! ### Stable sort by date key (`rows.sort(key=...)`) -/

/-- The sort key of a row: `parse_date_key(r.get('time', ''))`. -/
def keyOf (r : Row) : Except PyErr DateKey := parse_date_key (pyGetD r timeKey [])

/-- Strict lexicographic comparison of date keys (Python tuple `<`). -/
def keyLt (a b : DateKey) : Bool :=
  decide (a.1 < b.1) ||
    (decide (a.1 = b.1) &&
      (decide (a.2.1 < b.2.1) ||
        (decide (a.2.1 = b.2.1) && decide (a.2.2 < b.2.2))))

/-- Compute all sort keys, left to right, stopping at the first raised
`ValueError` (CPython decorates every element with its key before
sorting). -/
def decorate : List Row → Except PyErr (List (DateKey × Row))
  | [] => .ok []
  | r :: rs =>
    match keyOf r with
    | .error e => .error e
    | .ok k =>
      match decorate rs with
      | .error e => .error e
      | .ok ks => .ok ((k, r) :: ks)

/-- Insert a keyed row before the first element whose key is not
strictly smaller: elements that arrived earlier in the input end up
before later elements with an equal key, giving a stable sort. -/
def insKeyed (x : DateKey × Row) : List (DateKey × Row) → List (DateKey × Row)
  | [] => [x]
  | y :: ys => if keyLt y.1 x.1 then y :: insKeyed x ys else x :: y :: ys

/-- Stable insertion sort on keyed rows; extensionally equal to the
stable `list.sort` of Python for this key. -/
def sortKeyed : List (DateKey × Row) → List (DateKey × Row)
  | [] => []
  | x :: xs => insKeyed x (sortKeyed xs)

/-- Line 39: `rows.sort(key=lambda r: parse_date_key(r.get('time', '')))`. -/
def sortStep (rows : List Row) : Except PyErr (List Row) :=
  match decorate rows with
  | .error e => .error e
  | .ok keyed => .ok (List.map Prod.snd (sortKeyed keyed))

/-! ### Anchor row and calendar arithmetic -/

/-- Lines 43-44 of `verify_sha256.py` on the split parts `lp`:
`last_month = int(lp[1]); last_year = int(lp[2])`, with the `IndexError`
and `ValueError` cases explicit and in evaluation order. -/
def monthYearOfParts (lp : List Str) : Except PyErr (Int × Int) :=
  match lp.get? 1 with
  | none => .error .indexError
  | some p1 =>
    match pyInt p1 with
    | none => .error (.valueError p1)
    | some m =>
      match lp.get? 2 with
      | none => .error .indexError
      | some p2 =>
        match pyInt p2 with
        | none => .error (.valueError p2)
        | some y => .ok (m, y)

/-- Lines 42-44 applied to the stripped time string:
`lp = last_time.split('/')` followed by the month/year conversion. -/
def anchorMonthYear (last_time : Str) : Except PyErr (Int × Int) :=
  monthYearOfParts (splitOnChar '/' last_time)

/-- Line 41 onwards: `last_time = rows[-1]['time'].strip()` followed by
the month/year extraction; `rows[-1]` on an empty list raises
`IndexError` and a missing `time` key raises `KeyError`. -/
def anchorParse (rows : List Row) : Except PyErr (Str × Int × Int) :=
  match rows.getLast? with
  | none => .error .indexError
  | some lastRow =>
    match dictFind lastRow timeKey with
    | none => .error (.keyError timeKey)
    | some v =>
      let last_time := pyStrip v
      match anchorMonthYear last_time with
      | .error e => .error e
      | .ok my => .ok (last_time, my.1, my.2)

/-- Lines 46-50: `next_mo = last_month + 1; next_yr = last_year; if
next_mo > 12: next_mo = 1; next_yr += 1`. -/
def nextMY (m y : Int) : Int × Int :=
  if m + 1 > 12 then (1, y + 1) else (m + 1, y)

/-- Gregorian leap year test of the `calendar` module (Lean `Int.emod`
agrees with Python `%` for a positive modulus). -/
def pyLeap (y : Int) : Bool :=
  decide (y % 4 = 0) && (decide (y % 100 ≠ 0) || decide (y % 400 = 0))

/-- Days in a month of the proleptic Gregorian calendar, for a month
already known to lie in `1..12`. -/
def gregDays (y m : Int) : Nat :=
  if m = 2 then (if pyLeap y then 29 else 28)
  else if m = 4 ∨ m = 6 ∨ m = 9 ∨ m = 11 then 30
  else 31

/-- Python `calendar.monthrange(y, m)[1]`: the day count, raising
`IllegalMonthError` for a month outside `1..12`. -/
def monthDays (y m : Int) : Except PyErr Nat :=
  if 1 ≤ m ∧ m ≤ 12 then .ok (gregDays y m) else .error (.illegalMonthError m)

/-! ### Canonical string, result record, full pipeline -/

/-- One row of the canonical string:
`','.join(str(row.get(col, '')) for col in HASH_COLUMNS)` (the stored
values are strings, so `str` is the identity). -/
def canonRow (r : Row) : Str :=
  joinWith (strL ",") (List.map (fun col => pyGetD r col []) HASH_COLUMNS)

/-- Lines 54-57: the canonical string `full_string`, the per-row strings
joined with `|`. -/
def canonicalString (rows : List Row) : Str :=
  joinWith (strL "|") (List.map canonRow rows)

/-- The dictionary returned by `compute_best_day`. -/
structure SelectionResult where
  rows : Nat
  last_date : Str
  next_month : Str
  days_in_month : Nat
  sha256 : Str
  prefix8 : Str
  int_val : Nat
  predicted_day : Nat
  result : Str
deriving DecidableEq, Repr

/-- Lines 54-77 given the sorted rows, the stripped anchor time and the
already-computed next month, next year and day count. -/
def mkResult (rows : List Row) (last_time : Str) (next_mo next_yr : Int)
    (days_in_mo : Nat) : SelectionResult :=
  let sha := sha256hex (utf8Encode (canonicalString rows))
  let p8 := List.take 8 sha
  let int_val := hexValNat p8
  let day := int_val % days_in_mo + 1
  let dd := zfill 2 (natStr day)
  let mm := zfill 2 (intStr next_mo)
  { rows := rows.length
    last_date := last_time
    next_month := mm ++ strL "/" ++ intStr next_yr
    days_in_month := days_in_mo
    sha256 := sha
    prefix8 := p8
    int_val := int_val
    predicted_day := day
    result := strL "Best Purchase Day Next Month: " ++ dd ++ strL "-" ++ mm ++
      strL "-" ++ intStr next_yr }

/-- The tail of the computation after the next month and year are fixed:
`calendar.monthrange` (which can raise) followed by the pure result
construction. -/
def monthStage (rows : List Row) (last_time : Str) (p : Int × Int) :
    Except PyErr SelectionResult :=
  match monthDays p.2 p.1 with
  | .error e => .error e
  | .ok d => .ok (mkResult rows last_time p.1 p.2 d)

/-- Lines 41-77: everything after the sort, on the sorted rows. -/
def afterSort (rows : List Row) : Except PyErr SelectionResult :=
  match anchorParse rows with
  | .error e => .error e
  | .ok a => monthStage rows a.1 (nextMY a.2.1 a.2.2)

/-- Function `compute_best_day` from the list of row dictionaries onward: sort,
then anchor, calendar and hash. -/
def computeFromRows (rows : List Row) : Except PyErr SelectionResult :=
  match sortStep rows with
  | .error e => .error e
  | .ok sorted => afterSort sorted

/-! ### Reading the CSV text (lines 27-37) -/

/-- Line 28: `f.read().strip().split('\n')`; never empty. -/
def linesOf (content : Str) : List Str := splitOnChar '\n' (pyStrip content)

/-- Line 30: `header = [h.strip() for h in lines[0].split(',')]` (the `[]` case is
unreachable: splitting always yields at least one line). -/
def headerOf (content : Str) : List Str :=
  match linesOf content with
  | [] => []
  | h :: _ => List.map pyStrip (splitOnChar ',' h)

/-- One row dictionary: for the `i`-th header name `h`, the entry
`(h, vals[i].strip())`, or `(h, '')` when the line has fewer values. -/
def buildRow (header : List Str) (vals : List Str) : Row :=
  List.map (fun p => (p.2, match vals.get? p.1 with | some v => pyStrip v | none => []))
    header.enum

/-- The row dictionaries built from every line after the header. -/
def dataRows (content : Str) : List Row :=
  match linesOf content with
  | [] => []
  | _ :: ls => List.map (fun line => buildRow (headerOf content) (splitOnChar ',' line)) ls

/-- Function `compute_best_day`, from the text of the CSV file to the result
dictionary or the raised exception. -/
def compute_best_day (content : Str) : Except PyErr SelectionResult :=
  computeFromRows (dataRows content)

/-! ### Helper lemmas -/

instance instDecEqExcept {ε α : Type} [DecidableEq ε] [DecidableEq α] :
    DecidableEq (Except ε α) := fun a b =>
  match a, b with
  | .error e, .error f =>
    if h : e = f then .isTrue (congrArg Except.error h)
    else .isFalse (fun hh => h (Except.error.inj hh))
  | .ok x, .ok y =>
    if h : x = y then .isTrue (congrArg Except.ok h)
    else .isFalse (fun hh => h (Except.ok.inj hh))
  | .error _, .ok _ => .isFalse (fun hh => Except.noConfusion hh)
  | .ok _, .error _ => .isFalse (fun hh => Except.noConfusion hh)

/-- Unfolding `computeFromRows` after a successful sort. -/
theorem computeFromRows_eq_afterSort {rows sorted : List Row}
    (h : sortStep rows = .ok sorted) : computeFromRows rows = afterSort sorted := by
  unfold computeFromRows
  rw [h]

/-- Unfolding `computeFromRows` when the sort raises. -/
theorem computeFromRows_eq_error {rows : List Row} {e : PyErr}
    (h : sortStep rows = .error e) : computeFromRows rows = .error e := by
  unfold computeFromRows
  rw [h]

/-- Unfolding `afterSort` after a successful anchor parse. -/
theorem afterSort_eq_monthStage {rows : List Row} {a : Str × Int × Int}
    (h : anchorParse rows = .ok a) :
    afterSort rows = monthStage rows a.1 (nextMY a.2.1 a.2.2) := by
  unfold afterSort
  rw [h]

/-- Unfolding `afterSort` when the anchor parse raises. -/
theorem afterSort_eq_error {rows : List Row} {e : PyErr}
    (h : anchorParse rows = .error e) : afterSort rows = .error e := by
  unfold afterSort
  rw [h]

/-- Unfolding `monthStage` after a successful `monthrange`. -/
theorem monthStage_eq_ok {rows : List Row} {lt : Str} {p : Int × Int} {d : Nat}
    (h : monthDays p.2 p.1 = .ok d) :
    monthStage rows lt p = .ok (mkResult rows lt p.1 p.2 d) := by
  unfold monthStage
  rw [h]

/-- Unfolding `monthStage` when `monthrange` raises. -/
theorem monthStage_eq_error {rows : List Row} {lt : Str} {p : Int × Int} {e : PyErr}
    (h : monthDays p.2 p.1 = .error e) : monthStage rows lt p = .error e := by
  unfold monthStage
  rw [h]

/-- Every Gregorian month length is positive. -/
theorem gregDays_pos (y m : Int) : 0 < gregDays y m := by
  unfold gregDays
  split
  · split <;> norm_num
  · split <;> norm_num

/-- Eliminating a successful run of `computeFromRows` into its stages. -/
theorem computeFromRows_ok_elim (rows : List Row) (res : SelectionResult)
    (h : computeFromRows rows = .ok res) :
    ∃ sorted lt m y d, sortStep rows = .ok sorted ∧
      anchorParse sorted = .ok (lt, m, y) ∧
      monthDays (nextMY m y).2 (nextMY m y).1 = .ok d ∧
      res = mkResult sorted lt (nextMY m y).1 (nextMY m y).2 d := by
  cases h1 : sortStep rows with
  | error e => rw [computeFromRows_eq_error h1] at h; simp at h
  | ok sorted =>
    rw [computeFromRows_eq_afterSort h1] at h
    cases h2 : anchorParse sorted with
    | error e => rw [afterSort_eq_error h2] at h; simp at h
    | ok a =>
      rw [afterSort_eq_monthStage h2] at h
      cases h3 : monthDays (nextMY a.2.1 a.2.2).2 (nextMY a.2.1 a.2.2).1 with
      | error e => rw [monthStage_eq_error h3] at h; simp at h
      | ok d =>
        rw [monthStage_eq_ok h3] at h
        simp only [Except.ok.injEq] at h
        exact ⟨sorted, a.1, a.2.1, a.2.2, d, rfl, h2, h3, h.symm⟩

/-! ### Claim C1 -/

/-- Claim C1: for a fixed input (same content, hence same row content and
file order), two calls of `compute_best_day` return identical results, in
particular identical digests and selected days; the embedding is a pure
function of the input text, with no other state. -/
theorem compute_best_day_deterministic (c1 c2 : Str) (h : c1 = c2) :
    compute_best_day c1 = compute_best_day c2 ∧
    ∀ r1 r2, compute_best_day c1 = .ok r1 → compute_best_day c2 = .ok r2 →
      r1.sha256 = r2.sha256 ∧ r1.predicted_day = r2.predicted_day := by
  subst h
  refine ⟨rfl, fun r1 r2 h1 h2 => ?_⟩
  rw [h1] at h2
  simp only [Except.ok.injEq] at h2
  rw [h2]
  exact ⟨rfl, rfl⟩

/-- Witness for C1 at a concrete input. -/
theorem compute_best_day_deterministic_witness :
    compute_best_day (strL "time\n1/2/2026") = compute_best_day (strL "time\n1/2/2026") ∧
    ∀ r1 r2, compute_best_day (strL "time\n1/2/2026") = .ok r1 →
      compute_best_day (strL "time\n1/2/2026") = .ok r2 →
      r1.sha256 = r2.sha256 ∧ r1.predicted_day = r2.predicted_day :=
  compute_best_day_deterministic (strL "time\n1/2/2026") (strL "time\n1/2/2026") rfl

/-! ### Claim C7 -/

/-- Claim C7: an empty row set makes `compute_best_day` fail with the
error raised by `rows[-1]` (the `EmptyInputError` of the design
taxonomy), which propagates to the caller rather than being swallowed. -/
theorem empty_rows_fail (content : Str) (h : dataRows content = []) :
    compute_best_day content = .error PyErr.indexError ∧
    computeFromRows [] = .error PyErr.indexError := by
  constructor
  · unfold compute_best_day
    rw [h]
    rfl
  · rfl

/-- Witness for C7: a file holding only a header line has no data rows. -/
theorem empty_rows_fail_witness :
    compute_best_day (strL "time") = .error PyErr.indexError ∧
    computeFromRows [] = .error PyErr.indexError :=
  empty_rows_fail (strL "time") (by decide)

/-! ### Claim C5 -/

/-- Claim C5: a permutation of the input rows that leaves the sorted
order unchanged does not change the result: the computation after the
stable sort only sees the sorted list. -/
theorem sort_absorbs_permutation (rows1 rows2 : List Row)
    (hperm : List.Perm rows1 rows2) (hsort : sortStep rows1 = sortStep rows2) :
    computeFromRows rows1 = computeFromRows rows2 := by
  unfold computeFromRows
  rw [hsort]

/-- Witness for C5: swapping two rows with distinct dates. -/
theorem sort_absorbs_permutation_witness :
    computeFromRows [[(timeKey, strL "1/1/2026")], [(timeKey, strL "2/1/2026")]] =
      computeFromRows [[(timeKey, strL "2/1/2026")], [(timeKey, strL "1/1/2026")]] :=
  sort_absorbs_permutation _ _
    (List.Perm.swap [(timeKey, strL "2/1/2026")] [(timeKey, strL "1/1/2026")] [])
    (by decide)

/-! ### Claim C4 (corrected) -/

/-- The row set whose anchor time has month 13. -/
def rowsM13 : List Row := [[(timeKey, strL "1/13/2026")]]

/-- The result `compute_best_day` produces on `rowsM13`. -/
def resM13 : SelectionResult :=
  { rows := 1
    last_date := strL "1/13/2026"
    next_month := strL "01/2027"
    days_in_month := 31
    sha256 := strL "084ada5777072e32172d5c089ea8fdfa97be55bf2a95fb819c26907963562388"
    prefix8 := strL "084ada57"
    int_val := 139123287
    predicted_day := 31
    result := strL "Best Purchase Day Next Month: 31-01-2027" }

/-- Claim C4 counterexample: the anchor time `1/13/2026` parses to month
13 and year 2026; month 13 is not 12, so the claim predicts
`nextMonth = 14`, `nextYear = 2026`, but the code rolls over to
`01/2027` because its test is `next_mo > 12`, not `last_month == 12`. -/
theorem month_rollover_counterexample :
    anchorParse rowsM13 = .ok (strL "1/13/2026", 13, 2026) ∧
    computeFromRows rowsM13 = .ok resM13 ∧
    resM13.next_month = strL "01/2027" ∧
    resM13.next_month ≠ strL "14/2026" := by
  refine ⟨by decide, by decide, by decide, by decide⟩

/-- Claim C4 as amended: months `m ≥ 12` (not only `m = 12`) roll over to
month 1 of the next year; months `m < 12` map to `m + 1` of the same
year. -/
theorem month_rollover_amended (rows : List Row) (lt : Str) (m y : Int)
    (h : anchorParse rows = .ok (lt, m, y)) :
    afterSort rows = monthStage rows lt (nextMY m y) ∧
    (12 ≤ m → nextMY m y = (1, y + 1)) ∧
    (m < 12 → nextMY m y = (m + 1, y)) := by
  refine ⟨?_, fun hm => ?_, fun hm => ?_⟩
  · unfold afterSort
    rw [h]
  · unfold nextMY
    rw [if_pos (by omega)]
  · unfold nextMY
    rw [if_neg (by omega)]

/-- Witness for the amended C4, at months 13 and 5. -/
theorem month_rollover_amended_witness :
    nextMY 13 2026 = (1, 2027) ∧ nextMY 5 2026 = (6, 2026) ∧
    afterSort rowsM13 = monthStage rowsM13 (strL "1/13/2026") (nextMY 13 2026) := by
  refine ⟨(month_rollover_amended rowsM13 (strL "1/13/2026") 13 2026 (by decide)).2.1 (by norm_num),
    (month_rollover_amended [[(timeKey, strL "1/5/2026")]] (strL "1/5/2026") 5 2026
      (by decide)).2.2 (by norm_num),
    (month_rollover_amended rowsM13 (strL "1/13/2026") 13 2026 (by decide)).1⟩

/-! ### Claim C6 (corrected) -/

/-- Claim C6 counterexample: `a/b/cdef` splits into 3 parts with a
4-character last part, so `parse_date_key` calls `int('cdef')`, which
raises `ValueError` instead of returning the sentinel. -/
theorem parse_date_key_counterexample :
    parse_date_key (strL "a/b/cdef") = .error (PyErr.valueError (strL "cdef")) ∧
    parse_date_key (strL "a/b/cdef") ≠ .ok (0, 0, 0) := by
  refine ⟨by decide, by decide⟩

/-- Claim C6 as amended: `parse_date_key` returns the sentinel `(0,0,0)`
without failing on a wrong part count or a last part that is not 4
characters long; but when the shape check passes it converts the parts
(year first), and a non-numeric part raises `ValueError`. -/
theorem parse_date_key_amended (t : Str) :
    (¬ ((splitOnChar '/' (pyStrip t)).length = 3 ∧
        ((splitOnChar '/' (pyStrip t)).getD 2 []).length = 4) →
      parse_date_key t = .ok (0, 0, 0)) ∧
    ((splitOnChar '/' (pyStrip t)).length = 3 ∧
        ((splitOnChar '/' (pyStrip t)).getD 2 []).length = 4 →
      (∀ y m d : Int,
        pyInt ((splitOnChar '/' (pyStrip t)).getD 2 []) = some y →
        pyInt ((splitOnChar '/' (pyStrip t)).getD 1 []) = some m →
        pyInt ((splitOnChar '/' (pyStrip t)).getD 0 []) = some d →
        parse_date_key t = .ok (y, m, d)) ∧
      ((pyInt ((splitOnChar '/' (pyStrip t)).getD 2 []) = none ∨
        pyInt ((splitOnChar '/' (pyStrip t)).getD 1 []) = none ∨
        pyInt ((splitOnChar '/' (pyStrip t)).getD 0 []) = none) →
        ∃ s, parse_date_key t = .error (PyErr.valueError s))) := by
  constructor
  · intro hs
    unfold parse_date_key
    rw [if_neg hs]
  · intro hs
    constructor
    · intro y m d hy hm hd
      unfold parse_date_key
      rw [if_pos hs, hy, hm, hd]
    · intro hnone
      unfold parse_date_key
      rw [if_pos hs]
      cases h2 : pyInt ((splitOnChar '/' (pyStrip t)).getD 2 []) with
      | none => exact ⟨_, rfl⟩
      | some y =>
        cases h1 : pyInt ((splitOnChar '/' (pyStrip t)).getD 1 []) with
        | none => exact ⟨_, rfl⟩
        | some m =>
          cases h0 : pyInt ((splitOnChar '/' (pyStrip t)).getD 0 []) with
          | none => exact ⟨_, rfl⟩
          | some d =>
            exfalso
            rcases hnone with hn | hn | hn
            · rw [h2] at hn; cases hn
            · rw [h1] at hn; cases hn
            · rw [h0] at hn; cases hn

/-- Witness for the amended C6: a two-digit year gives the sentinel, a
well-formed date parses, and a non-numeric month raises. -/
theorem parse_date_key_amended_witness :
    parse_date_key (strL "01/02/26") = .ok (0, 0, 0) ∧
    parse_date_key (strL "01/02/2026") = .ok (2026, 2, 1) ∧
    ∃ s, parse_date_key (strL "1/x/2026") = .error (PyErr.valueError s) := by
  refine ⟨(parse_date_key_amended (strL "01/02/26")).1 (by decide),
    ((parse_date_key_amended (strL "01/02/2026")).2 (by decide)).1 2026 2 1
      (by decide) (by decide) (by decide),
    ((parse_date_key_amended (strL "1/x/2026")).2 (by decide)).2 (Or.inr (Or.inl (by decide)))⟩

/-! ### Claim C2 -/

/-- Eliminating a successful `calendar.monthrange` call. -/
theorem monthDays_ok_elim {y m : Int} {d : Nat} (h : monthDays y m = .ok d) :
    1 ≤ m ∧ m ≤ 12 ∧ d = gregDays y m := by
  unfold monthDays at h
  by_cases hc : 1 ≤ m ∧ m ≤ 12
  · rw [if_pos hc] at h
    exact ⟨hc.1, hc.2, (Except.ok.inj h).symm⟩
  · rw [if_neg hc] at h
    simp at h

/-- Claim C2: whenever the computation completes, the selected day obeys
`1 ≤ day ≤ daysInMonth`, the day is `intVal % daysInMonth + 1` with
`intVal` the base-16 value of the first 8 digest characters, and
`daysInMonth` is the proleptic Gregorian day count of the next month and
year displayed in the result, with the leap Februaries of 2026-2028
handled as the Gregorian calendar requires. -/
theorem selected_day_range_bound (rows : List Row) (res : SelectionResult)
    (h : computeFromRows rows = .ok res) :
    1 ≤ res.predicted_day ∧ res.predicted_day ≤ res.days_in_month ∧
    res.predicted_day = res.int_val % res.days_in_month + 1 ∧
    res.prefix8 = List.take 8 res.sha256 ∧
    res.int_val = hexValNat res.prefix8 ∧
    (∃ nm ny : Int, 1 ≤ nm ∧ nm ≤ 12 ∧
      res.next_month = zfill 2 (intStr nm) ++ strL "/" ++ intStr ny ∧
      res.days_in_month = gregDays ny nm) ∧
    gregDays 2028 2 = 29 ∧ gregDays 2026 2 = 28 ∧ gregDays 2027 2 = 28 := by
  obtain ⟨sorted, lt, m, y, d, h1, h2, h3, hres⟩ := computeFromRows_ok_elim rows res h
  obtain ⟨hm1, hm2, hd⟩ := monthDays_ok_elim h3
  subst hres
  have hpos : 0 < d := by
    rw [hd]
    exact gregDays_pos _ _
  refine ⟨Nat.le_add_left 1 _, ?_, rfl, rfl, rfl,
    ⟨(nextMY m y).1, (nextMY m y).2, hm1, hm2, rfl, hd⟩, by decide, by decide, by decide⟩
  exact Nat.succ_le_of_lt (Nat.mod_lt _ hpos)

/-- The concrete CSV text used by the C2 witness. -/
def contentW : Str := strL "time\n1/2/2026"

/-- The result the pipeline computes on `contentW`. -/
def resW : SelectionResult :=
  { rows := 1
    last_date := strL "1/2/2026"
    next_month := strL "03/2026"
    days_in_month := 31
    sha256 := strL "910bda9062a769f1417eeea90dbfeed1fe4e5feaf6574e66f12a855cf770fbb1"
    prefix8 := strL "910bda90"
    int_val := 2433473168
    predicted_day := 15
    result := strL "Best Purchase Day Next Month: 15-03-2026" }

/-- Witness for C2 at a concrete input. -/
theorem selected_day_range_bound_witness :
    1 ≤ resW.predicted_day ∧ resW.predicted_day ≤ resW.days_in_month ∧
    resW.predicted_day = resW.int_val % resW.days_in_month + 1 := by
  have h := selected_day_range_bound (dataRows contentW) resW (by decide)
  exact ⟨h.1, h.2.1, h.2.2.1⟩

/-! ### Claim C3 -/

/-- Mapping extensionally equal functions gives equal lists. -/
theorem map_ext {α β : Type} (f g : α → β) (l : List α) (h : ∀ a, f a = g a) :
    List.map f l = List.map g l := by
  induction l with
  | nil => rfl
  | cons x xs ih => simp only [List.map, h x, ih]

/-- The canonical string as the specification words it: take the rows in
sorted order; for each row, the values of the 39 recognized columns in
the fixed schema order, a missing column contributing the empty string;
join the column values with commas and the per-row strings with the pipe
character, with no terminal separator. -/
def canonicalOfSpec (sorted : List Row) : Str :=
  joinWith (strL "|")
    (List.map (fun r => joinWith (strL ",")
      (List.map (fun col => match dictFind r col with | some v => v | none => [])
        HASH_COLUMNS)) sorted)

/-- Claim C3: the string hashed by the pipeline is exactly the canonical
string of the specification, built from the rows in sorted order over
the 39 recognized columns, a row lacking a column contributing the empty
string rather than raising. -/
theorem canonical_string_matches_spec (rows : List Row) (res : SelectionResult)
    (h : computeFromRows rows = .ok res) :
    HASH_COLUMNS.length = 39 ∧
    (∀ (r : Row) (col : Str), dictFind r col = none → pyGetD r col [] = []) ∧
    ∃ sorted, sortStep rows = .ok sorted ∧
      canonicalString sorted = canonicalOfSpec sorted ∧
      res.sha256 = sha256hex (utf8Encode (canonicalOfSpec sorted)) := by
  refine ⟨by decide, ?_, ?_⟩
  · intro r col hc
    unfold pyGetD
    rw [hc]
    rfl
  · obtain ⟨sorted, lt, m, y, d, h1, h2, h3, hres⟩ := computeFromRows_ok_elim rows res h
    have hcs : canonicalString sorted = canonicalOfSpec sorted := by
      unfold canonicalString canonicalOfSpec canonRow
      apply congrArg
      apply map_ext
      intro r
      apply congrArg
      apply map_ext
      intro col
      unfold pyGetD
      cases dictFind r col <;> rfl
    refine ⟨sorted, h1, hcs, ?_⟩
    rw [hres, ← hcs]
    rfl

/-- The concrete two-row input of the C3 witness. -/
def rowsC3 : List Row := [[(timeKey, strL "2/2/2026")], [(timeKey, strL "3/2/2026")]]

/-- The result the pipeline computes on `rowsC3`. -/
def resC3 : SelectionResult :=
  { rows := 2
    last_date := strL "3/2/2026"
    next_month := strL "03/2026"
    days_in_month := 31
    sha256 := strL "d54373fe1aa6fa20dee66512254675d6344acbdf4c8b9b994cbd353efa18ff5d"
    prefix8 := strL "d54373fe"
    int_val := 3577967614
    predicted_day := 5
    result := strL "Best Purchase Day Next Month: 05-03-2026" }

/-- Witness for C3 at a concrete two-row input. -/
theorem canonical_string_matches_spec_witness :
    HASH_COLUMNS.length = 39 ∧
    resC3.sha256 = sha256hex (utf8Encode (canonicalOfSpec rowsC3)) := by
  obtain ⟨h39, -, sorted, hs, -, hsha⟩ :=
    canonical_string_matches_spec rowsC3 resC3 (by decide)
  have hsorted : sorted = rowsC3 := by
    rw [show sortStep rowsC3 = .ok rowsC3 from by decide] at hs
    exact (Except.ok.inj hs).symm
  rw [hsorted] at hsha
  exact ⟨h39, hsha⟩

/-! ### Claim C10 -/

/-- An index below the length reads an element. -/
theorem get?_of_lt {l : List Str} {n : Nat} (h : n < l.length) :
    l.get? n = some (l.getD n []) := by
  cases hg : l.get? n with
  | none =>
    rw [List.get?_eq_none] at hg
    omega
  | some a =>
    rw [List.getD_eq_get?, hg]
    rfl

/-- Claim C10: the anchor month/year extraction reads only the second
and third `/`-separated parts; it succeeds exactly when there are at
least three parts and those two parts are numeric; on success it returns
their integer values; it never inspects the day part or the year length;
and it is the function `anchorParse` (hence `computeFromRows`) runs on
the stripped time value of the last sorted row. -/
theorem anchor_reads_only_month_year (lp : List Str) :
    (∀ lt : Str, anchorMonthYear lt = monthYearOfParts (splitOnChar '/' lt)) ∧
    ((∃ v, monthYearOfParts lp = Except.ok v) ↔
      (3 ≤ lp.length ∧ (pyInt (lp.getD 1 [])).isSome = true ∧
       (pyInt (lp.getD 2 [])).isSome = true)) ∧
    (∀ m y : Int, monthYearOfParts lp = .ok (m, y) →
      pyInt (lp.getD 1 []) = some m ∧ pyInt (lp.getD 2 []) = some y) ∧
    (∀ lp2 : List Str, 3 ≤ lp.length → 3 ≤ lp2.length →
      lp.getD 1 [] = lp2.getD 1 [] → lp.getD 2 [] = lp2.getD 2 [] →
      monthYearOfParts lp = monthYearOfParts lp2) ∧
    (∀ (rows : List Row) (r : Row) (v : Str), rows.getLast? = some r →
      dictFind r timeKey = some v → ∀ m y : Int,
      anchorMonthYear (pyStrip v) = .ok (m, y) →
      anchorParse rows = .ok (pyStrip v, m, y)) := by
  refine ⟨fun lt => rfl, ?_, ?_, ?_, ?_⟩
  · constructor
    · rintro ⟨v, hv⟩
      unfold monthYearOfParts at hv
      by_cases hlen : 3 ≤ lp.length
      · rw [get?_of_lt (by omega : (1:Nat) < lp.length)] at hv
        dsimp only [] at hv
        cases hp1 : pyInt (lp.getD 1 []) with
        | none => rw [hp1] at hv; simp at hv
        | some m =>
          rw [hp1] at hv
          dsimp only [] at hv
          rw [get?_of_lt (by omega : (2:Nat) < lp.length)] at hv
          dsimp only [] at hv
          cases hp2 : pyInt (lp.getD 2 []) with
          | none => rw [hp2] at hv; simp at hv
          | some y => exact ⟨hlen, rfl, rfl⟩
      · by_cases hlen1 : 2 ≤ lp.length
        · rw [get?_of_lt (by omega : (1:Nat) < lp.length)] at hv
          dsimp only [] at hv
          cases hp1 : pyInt (lp.getD 1 []) with
          | none => rw [hp1] at hv; simp at hv
          | some m =>
            rw [hp1] at hv
            dsimp only [] at hv
            rw [List.get?_eq_none.mpr (by omega : lp.length ≤ 2)] at hv
            simp at hv
        · rw [List.get?_eq_none.mpr (by omega : lp.length ≤ 1)] at hv
          simp at hv
    · rintro ⟨hlen, hp1, hp2⟩
      obtain ⟨m, hm⟩ := Option.isSome_iff_exists.mp hp1
      obtain ⟨y, hy⟩ := Option.isSome_iff_exists.mp hp2
      refine ⟨(m, y), ?_⟩
      unfold monthYearOfParts
      rw [get?_of_lt (by omega : (1:Nat) < lp.length)]
      dsimp only []
      rw [hm]
      dsimp only []
      rw [get?_of_lt (by omega : (2:Nat) < lp.length)]
      dsimp only []
      rw [hy]
  · intro m y hv
    unfold monthYearOfParts at hv
    cases hg1 : lp.get? 1 with
    | none => rw [hg1] at hv; simp at hv
    | some p1 =>
      rw [hg1] at hv
      dsimp only [] at hv
      cases hp1 : pyInt p1 with
      | none => rw [hp1] at hv; simp at hv
      | some m' =>
        rw [hp1] at hv
        dsimp only [] at hv
        cases hg2 : lp.get? 2 with
        | none => rw [hg2] at hv; simp at hv
        | some p2 =>
          rw [hg2] at hv
          dsimp only [] at hv
          cases hp2 : pyInt p2 with
          | none => rw [hp2] at hv; simp at hv
          | some y' =>
            rw [hp2] at hv
            simp only [Except.ok.injEq, Prod.mk.injEq] at hv
            have hl1 : (1:Nat) < lp.length := by
              by_contra hc
              rw [List.get?_eq_none.mpr (by omega)] at hg1
              cases hg1
            have hl2 : (2:Nat) < lp.length := by
              by_contra hc
              rw [List.get?_eq_none.mpr (by omega)] at hg2
              cases hg2
            rw [get?_of_lt hl1] at hg1
            rw [get?_of_lt hl2] at hg2
            rw [← Option.some.inj hg1] at hp1
            rw [← Option.some.inj hg2] at hp2
            rw [hp1, hp2, hv.1, hv.2]
            exact ⟨rfl, rfl⟩
  · intro lp2 hl hl2 he1 he2
    unfold monthYearOfParts
    rw [get?_of_lt (by omega : (1:Nat) < lp.length),
      get?_of_lt (by omega : (1:Nat) < lp2.length),
      get?_of_lt (by omega : (2:Nat) < lp.length),
      get?_of_lt (by omega : (2:Nat) < lp2.length), he1, he2]
  · intro rows r v hlast hfind m y hmy
    unfold anchorParse
    rw [hlast]
    dsimp only []
    rw [hfind]
    dsimp only []
    rw [hmy]

/-- Witness for C10: a time value with a garbage day part and a 2-digit
year is accepted, its month and year are read, and the result ignores
the day part. -/
theorem anchor_reads_only_month_year_witness :
    (∃ v, monthYearOfParts (splitOnChar '/' (strL "x/2/26")) = Except.ok v) ∧
    (pyInt (strL "2") = some 2 ∧ pyInt (strL "26") = some 26) ∧
    monthYearOfParts (splitOnChar '/' (strL "x/2/26")) =
      monthYearOfParts (splitOnChar '/' (strL "99/2/26")) ∧
    anchorParse [[(timeKey, strL "x/2/26")]] = .ok (strL "x/2/26", 2, 26) := by
  refine ⟨(anchor_reads_only_month_year (splitOnChar '/' (strL "x/2/26"))).2.1.mpr
      ⟨by decide, by decide, by decide⟩, ?_, ?_, ?_⟩
  · have h := (anchor_reads_only_month_year (splitOnChar '/' (strL "x/2/26"))).2.2.1
      2 26 (by decide)
    exact ⟨by decide, by decide⟩
  · exact (anchor_reads_only_month_year (splitOnChar '/' (strL "x/2/26"))).2.2.2.1
      (splitOnChar '/' (strL "99/2/26")) (by decide) (by decide) (by decide) (by decide)
  · exact (anchor_reads_only_month_year []).2.2.2.2 [[(timeKey, strL "x/2/26")]]
      [(timeKey, strL "x/2/26")] (strL "x/2/26") (by decide) (by decide) 2 26 (by decide)

/-! ### Claim C8 -/

/-- Two rows agree on every recognized column: the restrictions of the
two dictionaries to the 39 `HASH_COLUMNS` are the same partial map. -/
def agreeRec (r r' : Row) : Prop :=
  ∀ c ∈ HASH_COLUMNS, dictFind r c = dictFind r' c

instance agreeRecDec (r r' : Row) : Decidable (agreeRec r r') :=
  List.decidableBAll (fun c => dictFind r c = dictFind r' c) HASH_COLUMNS

/-- The column `time` is recognized. -/
theorem timeKey_mem : timeKey ∈ HASH_COLUMNS := by decide

/-- Agreement transfers through `dict.get`. -/
theorem agreeRec_getD {r r' : Row} (h : agreeRec r r') {c : Str}
    (hc : c ∈ HASH_COLUMNS) (d : Str) : pyGetD r c d = pyGetD r' c d := by
  unfold pyGetD
  rw [h c hc]

/-- Agreeing rows have the same sort key. -/
theorem keyOf_congr {r r' : Row} (h : agreeRec r r') : keyOf r = keyOf r' := by
  unfold keyOf
  rw [agreeRec_getD h timeKey_mem]

/-- Agreement on keyed rows: equal keys and agreeing rows. -/
def keyedAgree (p q : DateKey × Row) : Prop := p.1 = q.1 ∧ agreeRec p.2 q.2

/-- Function `decorate` maps agreeing row lists to the same error or to agreeing
keyed lists. -/
theorem decorate_rel {l1 l2 : List Row} (h : List.Forall₂ agreeRec l1 l2) :
    (∃ e, decorate l1 = .error e ∧ decorate l2 = .error e) ∨
    (∃ k1 k2, decorate l1 = .ok k1 ∧ decorate l2 = .ok k2 ∧
      List.Forall₂ keyedAgree k1 k2) := by
  induction h with
  | nil => right; exact ⟨[], [], rfl, rfl, List.Forall₂.nil⟩
  | @cons a b as bs hab htl ih =>
    have hk := keyOf_congr hab
    cases hka : keyOf a with
    | error e =>
      left
      refine ⟨e, ?_, ?_⟩
      · unfold decorate
        rw [hka]
      · unfold decorate
        rw [← hk, hka]
    | ok k =>
      rcases ih with ⟨e, he1, he2⟩ | ⟨k1, k2, hk1, hk2, hrel⟩
      · left
        refine ⟨e, ?_, ?_⟩
        · unfold decorate
          rw [hka]
          dsimp only []
          rw [he1]
        · unfold decorate
          rw [← hk, hka]
          dsimp only []
          rw [he2]
      · right
        refine ⟨(k, a) :: k1, (k, b) :: k2, ?_, ?_,
          List.Forall₂.cons ⟨rfl, hab⟩ hrel⟩
        · unfold decorate
          rw [hka]
          dsimp only []
          rw [hk1]
        · unfold decorate
          rw [← hk, hka]
          dsimp only []
          rw [hk2]

/-- Stable insertion preserves pointwise agreement. -/
theorem insKeyed_rel {x1 x2 : DateKey × Row} (hx : keyedAgree x1 x2)
    {l1 l2 : List (DateKey × Row)} (h : List.Forall₂ keyedAgree l1 l2) :
    List.Forall₂ keyedAgree (insKeyed x1 l1) (insKeyed x2 l2) := by
  induction h with
  | nil => exact List.Forall₂.cons hx List.Forall₂.nil
  | @cons a b as bs hab htl ih =>
    unfold insKeyed
    rw [hab.1, hx.1]
    by_cases hlt : keyLt b.1 x2.1 = true
    · rw [if_pos hlt, if_pos hlt]
      exact List.Forall₂.cons hab ih
    · rw [if_neg hlt, if_neg hlt]
      exact List.Forall₂.cons hx (List.Forall₂.cons hab htl)

/-- The stable sort preserves pointwise agreement. -/
theorem sortKeyed_rel {l1 l2 : List (DateKey × Row)}
    (h : List.Forall₂ keyedAgree l1 l2) :
    List.Forall₂ keyedAgree (sortKeyed l1) (sortKeyed l2) := by
  induction h with
  | nil => exact List.Forall₂.nil
  | cons hab htl ih => exact insKeyed_rel hab ih

/-- Dropping the keys preserves agreement. -/
theorem map_snd_rel {l1 l2 : List (DateKey × Row)}
    (h : List.Forall₂ keyedAgree l1 l2) :
    List.Forall₂ agreeRec (List.map Prod.snd l1) (List.map Prod.snd l2) := by
  induction h with
  | nil => exact List.Forall₂.nil
  | cons hab htl ih => exact List.Forall₂.cons hab.2 ih

/-- The whole sort step maps agreeing inputs to the same error or to
agreeing sorted lists. -/
theorem sortStep_rel {l1 l2 : List Row} (h : List.Forall₂ agreeRec l1 l2) :
    (∃ e, sortStep l1 = .error e ∧ sortStep l2 = .error e) ∨
    (∃ s1 s2, sortStep l1 = .ok s1 ∧ sortStep l2 = .ok s2 ∧
      List.Forall₂ agreeRec s1 s2) := by
  rcases decorate_rel h with ⟨e, h1, h2⟩ | ⟨k1, k2, h1, h2, hrel⟩
  · left
    refine ⟨e, ?_, ?_⟩
    · unfold sortStep
      rw [h1]
    · unfold sortStep
      rw [h2]
  · right
    refine ⟨_, _, ?_, ?_, map_snd_rel (sortKeyed_rel hrel)⟩
    · unfold sortStep
      rw [h1]
    · unfold sortStep
      rw [h2]

/-- Related lists have related last elements. -/
theorem getLast?_rel {α β : Type} {R : α → β → Prop} {l1 : List α} {l2 : List β}
    (h : List.Forall₂ R l1 l2) :
    (l1.getLast? = none ∧ l2.getLast? = none) ∨
    (∃ a b, l1.getLast? = some a ∧ l2.getLast? = some b ∧ R a b) := by
  induction h with
  | nil => left; exact ⟨rfl, rfl⟩
  | @cons a b as bs hab htl ih =>
    right
    cases htl with
    | nil => exact ⟨a, b, rfl, rfl, hab⟩
    | @cons a2 b2 as2 bs2 hab2 htl2 =>
      rcases ih with ⟨h1, h2⟩ | ⟨x, y, h1, h2, hxy⟩
      · rw [List.getLast?_eq_none_iff] at h1
        cases h1
      · exact ⟨x, y, by rw [List.getLast?_cons_cons]; exact h1,
          by rw [List.getLast?_cons_cons]; exact h2, hxy⟩

/-- Mapping a function that respects a relation over related lists. -/
theorem map_eq_of_rel {α β : Type} {R : α → α → Prop} {f : α → β}
    (hf : ∀ a b, R a b → f a = f b) {l1 l2 : List α}
    (h : List.Forall₂ R l1 l2) : List.map f l1 = List.map f l2 := by
  induction h with
  | nil => rfl
  | cons hab htl ih =>
    simp only [List.map]
    rw [hf _ _ hab, ih]

/-- Mapping extensionally equal functions over the members of a list. -/
theorem map_ext_mem {α β : Type} (f g : α → β) (l : List α)
    (h : ∀ a ∈ l, f a = g a) : List.map f l = List.map g l := by
  induction l with
  | nil => rfl
  | cons x xs ih =>
    simp only [List.map]
    rw [h x (List.mem_cons_self x xs), ih (fun a ha => h a (List.mem_cons_of_mem x ha))]

/-- Agreeing rows canonicalize identically. -/
theorem canonRow_congr {r r' : Row} (h : agreeRec r r') : canonRow r = canonRow r' := by
  unfold canonRow
  exact congrArg _ (map_ext_mem _ _ HASH_COLUMNS (fun c hc => agreeRec_getD h hc []))

/-- Agreeing sorted lists build the same result record. -/
theorem mkResult_congr {s1 s2 : List Row} (h : List.Forall₂ agreeRec s1 s2)
    (lt : Str) (nm ny : Int) (d : Nat) :
    mkResult s1 lt nm ny d = mkResult s2 lt nm ny d := by
  have hcanon : canonicalString s1 = canonicalString s2 := by
    unfold canonicalString
    exact congrArg (joinWith (strL "|"))
      (map_eq_of_rel (fun a b hab => canonRow_congr hab) h)
  have hlen : s1.length = s2.length := h.length_eq
  unfold mkResult
  rw [hcanon, hlen]

/-- Everything after the sort is determined by the recognized columns. -/
theorem afterSort_congr {s1 s2 : List Row} (h : List.Forall₂ agreeRec s1 s2) :
    afterSort s1 = afterSort s2 := by
  unfold afterSort anchorParse
  rcases getLast?_rel h with ⟨hn1, hn2⟩ | ⟨r1, r2, h1, h2, hrr⟩
  · rw [hn1, hn2]
  · rw [h1, h2]
    dsimp only []
    rw [hrr timeKey timeKey_mem]
    cases hf : dictFind r2 timeKey with
    | none => rfl
    | some v =>
      dsimp only []
      cases hmy : anchorMonthYear (pyStrip v) with
      | error e => rfl
      | ok my =>
        dsimp only []
        unfold monthStage
        cases hd : monthDays (nextMY my.1 my.2).2 (nextMY my.1 my.2).1 with
        | error e => rfl
        | ok d =>
          dsimp only []
          rw [mkResult_congr h]

/-- Claim C8: inputs whose rows agree on the 39 recognized columns give
identical results: columns outside the schema never reach the canonical
string, the sort key or the anchor, so they cannot affect the digest or
the selected day. -/
theorem unrecognized_columns_ignored (rows1 rows2 : List Row)
    (h : List.Forall₂ agreeRec rows1 rows2) :
    computeFromRows rows1 = computeFromRows rows2 := by
  rcases sortStep_rel h with ⟨e, h1, h2⟩ | ⟨s1, s2, h1, h2, hrel⟩
  · rw [computeFromRows_eq_error h1, computeFromRows_eq_error h2]
  · rw [computeFromRows_eq_afterSort h1, computeFromRows_eq_afterSort h2]
    exact afterSort_congr hrel

/-- Witness for C8: adding, removing and renaming unrecognized columns
leaves the result unchanged. -/
theorem unrecognized_columns_ignored_witness :
    computeFromRows [[(timeKey, strL "3/4/2026"), (strL "Notes", strL "alpha")]] =
      computeFromRows [[(strL "Extra", strL "beta"), (timeKey, strL "3/4/2026")]] :=
  unrecognized_columns_ignored _ _
    (List.Forall₂.cons (by decide) List.Forall₂.nil)

/-! ### Claim C9 -/

/-- Dropping a prefix twice drops it once. -/
theorem dropWhile_idem (p : Char → Bool) (l : List Char) :
    List.dropWhile p (List.dropWhile p l) = List.dropWhile p l := by
  induction l with
  | nil => rfl
  | cons c cs ih =>
    rw [List.dropWhile_cons]
    by_cases hc : p c = true
    · rw [if_pos hc]
      exact ih
    · rw [if_neg hc, List.dropWhile_cons, if_neg hc]

/-- The head surviving `dropWhile` falsifies the predicate. -/
theorem dropWhile_head_false (p : Char → Bool) (l : List Char) {c : Char}
    {cs : List Char} (h : List.dropWhile p l = c :: cs) : p c = false := by
  induction l with
  | nil => cases h
  | cons a as ih =>
    rw [List.dropWhile_cons] at h
    by_cases ha : p a = true
    · rw [if_pos ha] at h
      exact ih h
    · rw [if_neg ha] at h
      cases h
      simpa using ha

/-- A non-empty suffix has the last element of the whole list. -/
theorem getLast?_of_suffix {l1 l2 : List Char} (h : l1 <:+ l2) (hne : l1 ≠ []) :
    l1.getLast? = l2.getLast? := by
  obtain ⟨pre, rfl⟩ := h
  exact (List.getLast?_append_of_ne_nil pre hne).symm

/-- Python `strip` is idempotent. -/
theorem pyStrip_idem (s : Str) : pyStrip (pyStrip s) = pyStrip s := by
  cases hv : pyStrip s with
  | nil => rfl
  | cons c cs =>
    unfold pyStrip dropLeading at hv
    have hc : isPySpace c = false := dropWhile_head_false _ _ hv
    have hsuf : (c :: cs) <:+ List.reverse (List.dropWhile isPySpace (List.reverse s)) := by
      rw [← hv]
      exact List.dropWhile_suffix _
    have hlast : (c :: cs).getLast? =
        (List.dropWhile isPySpace (List.reverse s)).head? := by
      rw [← List.getLast?_reverse]
      exact getLast?_of_suffix hsuf (by simp)
    cases ht : List.dropWhile isPySpace (List.reverse s) with
    | nil =>
      rw [ht] at hv
      simp at hv
    | cons d ds =>
      have hd : isPySpace d = false := dropWhile_head_false _ _ ht
      rw [ht] at hlast
      unfold pyStrip dropLeading
      cases hr : List.reverse (c :: cs) with
      | nil => simp at hr
      | cons e es =>
        have he : e = d := by
          have hh := List.head?_reverse (c :: cs)
          rw [hr, hlast] at hh
          exact Option.some.inj hh
        have hdw1 : List.dropWhile isPySpace (e :: es) = e :: es := by
          rw [List.dropWhile_cons,
            if_neg (show ¬(isPySpace e = true) by simp [he, hd])]
        have hdw2 : List.dropWhile isPySpace (c :: cs) = c :: cs := by
          rw [List.dropWhile_cons, if_neg (show ¬(isPySpace c = true) by simp [hc])]
        have hrr : (e :: es).reverse = c :: cs := by
          rw [← hr, List.reverse_reverse]
        rw [hdw1, hrr, hdw2]

/-- Pointwise Boolean comparison of two lists: equal lengths and the
relation at every position. -/
def listRel {α β : Type} (R : α → β → Bool) : List α → List β → Bool
  | [], [] => true
  | a :: as, b :: bs => R a b && listRel R as bs
  | _, _ => false

/-- Two cells equal up to leading and trailing whitespace. -/
def stripEqB (a b : Str) : Bool := decide (pyStrip a = pyStrip b)

/-- The cell decomposition of a CSV text: the stripped content split
into lines, each line split on commas. -/
def cellsOf (content : Str) : List (List Str) :=
  List.map (splitOnChar ',') (linesOf content)

/-- A true `listRel` gives a pointwise `Forall₂`. -/
theorem listRel_forall₂ {α β : Type} (R : α → β → Bool) :
    ∀ (l1 : List α) (l2 : List β), listRel R l1 l2 = true →
      List.Forall₂ (fun a b => R a b = true) l1 l2 := by
  intro l1
  induction l1 with
  | nil =>
    intro l2 h
    cases l2 with
    | nil => exact List.Forall₂.nil
    | cons b bs => simp [listRel] at h
  | cons a as ih =>
    intro l2 h
    cases l2 with
    | nil => simp [listRel] at h
    | cons b bs =>
      simp only [listRel, Bool.and_eq_true] at h
      exact List.Forall₂.cons h.1 (ih bs h.2)

/-- Related lists read related elements at every index. -/
theorem forall₂_get? {α β : Type} {R : α → β → Prop} {l1 : List α} {l2 : List β}
    (h : List.Forall₂ R l1 l2) : ∀ i : Nat,
      (l1.get? i = none ∧ l2.get? i = none) ∨
      (∃ a b, l1.get? i = some a ∧ l2.get? i = some b ∧ R a b) := by
  induction h with
  | nil => intro i; left; exact ⟨rfl, rfl⟩
  | @cons a b as bs hab htl ih =>
    intro i
    cases i with
    | zero => right; exact ⟨a, b, rfl, rfl, hab⟩
    | succ n => exact ih n

/-- Mapping functions that agree across a relation over related lists. -/
theorem map_eq_of_forall₂ {α β γ : Type} {R : α → β → Prop} {f : α → γ} {g : β → γ}
    (hf : ∀ a b, R a b → f a = g b) {l1 : List α} {l2 : List β}
    (h : List.Forall₂ R l1 l2) : List.map f l1 = List.map g l2 := by
  induction h with
  | nil => rfl
  | cons hab htl ih =>
    simp only [List.map]
    rw [hf _ _ hab, ih]

/-- Value lists that are cellwise strip-equal build the same row. -/
theorem buildRow_congr (header : List Str) {vals1 vals2 : List Str}
    (h : List.Forall₂ (fun a b => pyStrip a = pyStrip b) vals1 vals2) :
    buildRow header vals1 = buildRow header vals2 := by
  unfold buildRow
  apply map_ext_mem
  intro p hp
  rcases forall₂_get? h p.1 with ⟨h1, h2⟩ | ⟨a, b, h1, h2, hab⟩
  · rw [h1, h2]
  · rw [h1, h2]
    dsimp only []
    rw [hab]

/-- A pair listed by `enum` has its second component in the list. -/
theorem snd_mem_of_mem_enumFrom {α : Type} {p : Nat × α} :
    ∀ (l : List α) (n : Nat), p ∈ List.enumFrom n l → p.2 ∈ l := by
  intro l
  induction l with
  | nil =>
    intro n h
    simp [List.enumFrom] at h
  | cons x xs ih =>
    intro n h
    simp only [List.enumFrom] at h
    rcases List.mem_cons.mp h with h1 | h1
    · rw [h1]
      exact List.mem_cons_self x xs
    · exact List.mem_cons_of_mem x (ih (n + 1) h1)

/-- Every header name the reader produces is already stripped. -/
theorem headerOf_stripped (c : Str) : ∀ s ∈ headerOf c, pyStrip s = s := by
  intro s hs
  unfold headerOf at hs
  cases hl : linesOf c with
  | nil =>
    rw [hl] at hs
    simp at hs
  | cons hd tl =>
    rw [hl] at hs
    dsimp only [] at hs
    obtain ⟨raw, hraw, rfl⟩ := List.mem_map.mp hs
    exact pyStrip_idem raw

/-- Every key and value of every row the reader produces is already
stripped. -/
theorem dataRows_stripped (c : Str) :
    ∀ r ∈ dataRows c, ∀ p ∈ r, pyStrip p.1 = p.1 ∧ pyStrip p.2 = p.2 := by
  intro r hr p hp
  unfold dataRows at hr
  cases hl : linesOf c with
  | nil =>
    rw [hl] at hr
    simp at hr
  | cons hd tl =>
    rw [hl] at hr
    dsimp only [] at hr
    obtain ⟨line, hline, rfl⟩ := List.mem_map.mp hr
    unfold buildRow at hp
    obtain ⟨q, hq, rfl⟩ := List.mem_map.mp hp
    constructor
    · exact headerOf_stripped c q.2 (snd_mem_of_mem_enumFrom (headerOf c) 0 hq)
    · dsimp only []
      cases hg : (splitOnChar ',' line).get? q.1 with
      | none => rfl
      | some v => exact pyStrip_idem v

/-- Claim C9: header names and cell values are stripped as rows are read
(each is a fixed point of stripping), and consequently two CSV texts
whose line and cell structure agree and whose cells differ only in
leading and trailing whitespace produce identical results. -/
theorem whitespace_insensitive (c1 c2 : Str)
    (h : listRel (listRel stripEqB) (cellsOf c1) (cellsOf c2) = true) :
    (∀ s ∈ headerOf c1, pyStrip s = s) ∧
    (∀ r ∈ dataRows c1, ∀ p ∈ r, pyStrip p.1 = p.1 ∧ pyStrip p.2 = p.2) ∧
    compute_best_day c1 = compute_best_day c2 := by
  refine ⟨headerOf_stripped c1, dataRows_stripped c1, ?_⟩
  have hf := listRel_forall₂ (listRel stripEqB) (cellsOf c1) (cellsOf c2) h
  unfold cellsOf at hf
  rw [List.forall₂_map_left_iff, List.forall₂_map_right_iff] at hf
  cases hl1 : linesOf c1 with
  | nil =>
    rw [hl1] at hf
    have hl2 : linesOf c2 = [] := List.forall₂_nil_left_iff.mp hf
    unfold compute_best_day dataRows
    rw [hl1, hl2]
  | cons h1 t1 =>
    rw [hl1] at hf
    obtain ⟨h2, t2, hhd, htl, hl2⟩ := List.forall₂_cons_left_iff.mp hf
    have hhdr : headerOf c1 = headerOf c2 := by
      unfold headerOf
      rw [hl1, hl2]
      dsimp only []
      exact map_eq_of_forall₂ (fun a b hab => hab)
        ((listRel_forall₂ stripEqB _ _ hhd).imp
          (fun a b hab => of_decide_eq_true hab))
    have hrows : dataRows c1 = dataRows c2 := by
      unfold dataRows
      rw [hl1, hl2]
      dsimp only []
      exact map_eq_of_forall₂
        (fun a b hab => by
          rw [hhdr]
          exact buildRow_congr (headerOf c2)
            ((listRel_forall₂ stripEqB _ _ hab).imp
              (fun x y hxy => of_decide_eq_true hxy)))
        htl
    unfold compute_best_day
    rw [hrows]

/-- Witness for C9: adding spaces around header names and cells does not
change the result. -/
theorem whitespace_insensitive_witness :
    compute_best_day (strL "time ,x\n 1/2/2026 , 5") =
      compute_best_day (strL "time,x\n1/2/2026,5") :=
  (whitespace_insensitive (strL "time ,x\n 1/2/2026 , 5")
    (strL "time,x\n1/2/2026,5") (by decide)).2.2
